import Mathlib

/-!
# Camancipation: timeline-segment extraction, verified model

A shallow embedding of `src/camancipation.py` (the Camtasia-project video
reconstructor).  The XML document is modelled as a tree of elements; the
functions `parse_fraction`, `extract_segments` and `reconstruct` are
translated from the Python source, and the properties stated in the design
specification are settled against them.
-/

namespace Camancipation

/-- An XML element as seen by `xml.etree.ElementTree`: a tag, an attribute
map (unique keys), and an ordered list of child elements. -/
inductive Elem : Type where
  | mk (tag : String) (attrs : List (String × String)) (children : List Elem)

def Elem.tag : Elem → String
  | .mk t _ _ => t

def Elem.attrs : Elem → List (String × String)
  | .mk _ a _ => a

def Elem.children : Elem → List Elem
  | .mk _ _ c => c

/-- `e.get(k)` of ElementTree: the attribute value, if present. -/
def Elem.attr (e : Elem) (k : String) : Option String :=
  (e.attrs.find? (fun p => p.1 = k)).map (fun p => p.2)

/-- `e.get(k, d)` of ElementTree: the attribute value, or the default `d`. -/
def Elem.getD (e : Elem) (k d : String) : String :=
  (e.attr k).getD d

mutual

/-- All elements of the subtree rooted at `e`, in document (preorder) order,
`e` itself included.  Used to embed the `.//` (descendant) XPath step. -/
def preorder : Elem → List Elem
  | .mk t a cs => .mk t a cs :: preorderList cs

/-- Preorder traversal of a forest, in document order. -/
def preorderList : List Elem → List Elem
  | [] => []
  | c :: cs => preorder c ++ preorderList cs

end

/-- The proper descendants of `e` in document order (`e` excluded):
what the XPath prefix `.//` ranges over when applied at `e`. -/
def descendants (e : Elem) : List Elem :=
  preorderList e.children

/-- The direct children of `e` bearing tag `t` (one `/tag` XPath step). -/
def childrenWithTag (t : String) (e : Elem) : List Elem :=
  e.children.filter (fun c => c.tag = t)

/-- Models Python's `int()` on the strings this tool feeds it: an optional
sign followed by a nonempty run of decimal digits; `none` models the
`ValueError` raised on anything else. -/
def pyInt : String → Option Int :=
  fun s =>
    match s.toList with
    | '-' :: rest =>
        if rest ≠ [] ∧ rest.all Char.isDigit then
          some (-(Int.ofNat (rest.foldl (fun n c => n * 10 + (c.toNat - 48)) 0)))
        else none
    | '+' :: rest =>
        if rest ≠ [] ∧ rest.all Char.isDigit then
          some (Int.ofNat (rest.foldl (fun n c => n * 10 + (c.toNat - 48)) 0))
        else none
    | cs =>
        if cs ≠ [] ∧ cs.all Char.isDigit then
          some (Int.ofNat (cs.foldl (fun n c => n * 10 + (c.toNat - 48)) 0))
        else none

/-- `parse_fraction` from the source: values like `"1032/1"` become the
integer before the slash; a plain integer string is parsed directly; an
empty or absent (`None`) value yields `0`.  `none` in the result models a
propagated `ValueError` from `int()`. -/
def parse_fraction (value : Option String) : Option Int :=
  match value with
  | none => some 0
  | some s =>
      if s.toList ≠ [] ∧ '/' ∈ s.toList then
        pyInt (String.mk (s.toList.takeWhile (fun c => c ≠ '/')))
      else if s.toList ≠ [] then
        pyInt s
      else
        some 0

/-- A timeline segment descriptor as built by `extract_segments`. -/
structure Segment : Type where
  type : String
  timelineStart : Int
  mediaStart : Int
  duration : Int
deriving Repr, DecidableEq

/-- The deduplication key used by `extract_segments`. -/
def keyOf (s : Segment) : Int × Int :=
  (s.mediaStart, s.duration)

/-- One iteration of the media loop in `extract_segments`: a `StitchedMedia`
or `ScreenVMFile` element yields one candidate segment from its own
`start` / `mediaStart` / `mediaDuration` attributes (defaulting to `"0"`);
any other tag yields nothing.  The outer `none` models a `ValueError`
escaping from `parse_fraction`. -/
def mediaCandidate (media : Elem) : Option (Option Segment) :=
  if media.tag = "StitchedMedia" then
    match parse_fraction (some (media.getD "start" "0")),
        parse_fraction (some (media.getD "mediaStart" "0")),
        parse_fraction (some (media.getD "mediaDuration" "0")) with
    | some ts, some ms, some d => some (some ⟨"StitchedMedia", ts, ms, d⟩)
    | _, _, _ => none
  else if media.tag = "ScreenVMFile" then
    match parse_fraction (some (media.getD "start" "0")),
        parse_fraction (some (media.getD "mediaStart" "0")),
        parse_fraction (some (media.getD "mediaDuration" "0")) with
    | some ts, some ms, some d => some (some ⟨"ScreenVMFile", ts, ms, d⟩)
    | _, _, _ => none
  else
    some none

/-- The candidates contributed by a list of sibling media elements, in
document order; aborts at the first parse failure, as the Python loop
does when `int()` raises. -/
def mediasCandidates : List Elem → Option (List Segment)
  | [] => some []
  | m :: rest =>
      match mediaCandidate m with
      | none => none
      | some c =>
          match mediasCandidates rest with
          | none => none
          | some cs => some (c.toList ++ cs)

/-- The candidates contributed by one `GenericTrack`: its first direct
`Medias` child is located with `track.find("Medias")`; a track without one
is skipped (`continue`). -/
def trackCandidates (track : Elem) : Option (List Segment) :=
  match track.children.find? (fun c => c.tag = "Medias") with
  | none => some []
  | some medias => mediasCandidates medias.children

/-- The elements matched by
`root.findall(".//Timeline/GenericMixer/Tracks/GenericTrack")`:
every `Timeline` descendant of the root, then the chain of direct
children `GenericMixer / Tracks / GenericTrack`, in document order. -/
def tracksOf (root : Elem) : List Elem :=
  ((descendants root).filter (fun e => e.tag = "Timeline")).flatMap
    (fun tl => (childrenWithTag "GenericMixer" tl).flatMap
      (fun gm => (childrenWithTag "Tracks" gm).flatMap
        (childrenWithTag "GenericTrack")))

/-- The full candidate list accumulated in `segments` before deduplication,
across all tracks in traversal order. -/
def candidates (root : Elem) : Option (List Segment) :=
  go (tracksOf root)
where
  /-- Sequential accumulation over the track list. -/
  go : List Elem → Option (List Segment)
    | [] => some []
    | t :: ts =>
        match trackCandidates t with
        | none => none
        | some cs =>
            match go ts with
            | none => none
            | some rest => some (cs ++ rest)

/-- The deduplication loop of `extract_segments`: keep the first candidate
for each `(mediaStart, duration)` key, preserving encounter order; `seen`
is the set of keys already kept. -/
def dedupSegments : List Segment → List (Int × Int) → List Segment
  | [], _ => []
  | s :: rest, seen =>
      if keyOf s ∈ seen then dedupSegments rest seen
      else s :: dedupSegments rest (keyOf s :: seen)

/-- `extract_segments` from the source, applied to the already-parsed
document tree: collect candidates from every top-level track, then
deduplicate by `(mediaStart, duration)`.  No sorting is performed.
`none` models a `ValueError` escaping from attribute parsing. -/
def extract_segments (root : Elem) : Option (List Segment) :=
  match candidates root with
  | none => none
  | some cs => some (dedupSegments cs [])

/-- `f"slice_{i:03d}.ts"`: the intermediate file name for slice `i`,
zero-padded to at least three digits. -/
def sliceName (i : Nat) : String :=
  let digits := toString i
  "slice_" ++ String.mk (List.replicate (3 - digits.length) '0') ++ digits ++ ".ts"

/-- The externally observable effects of one `reconstruct` call:
the manifest contents if `concat_list.txt` was (re)written, the
`(mediaStart, duration)` window (in frames) of each slice-render command
issued, and whether the final concatenation command was issued. -/
structure ReconstructTrace : Type where
  manifestWritten : Option (List String)
  sliceCommands : List (Int × Int)
  concatInvoked : Bool
deriving Repr, DecidableEq

/-- `reconstruct` from the source, as the trace of its external effects.
When `restart` is false, each segment is rendered to `sliceName i` with a
window of `mediaStart` frames offset and `duration` frames length, and a
manifest line naming that slice file is written; when `restart` is true,
neither rendering nor manifest writing happens.  The final stream-copy
concatenation command is issued unconditionally, whatever the segment
list. -/
def reconstruct (segments : List Segment) (restart : Bool) : ReconstructTrace :=
  if restart then
    { manifestWritten := none, sliceCommands := [], concatInvoked := true }
  else
    { manifestWritten := some ((List.range segments.length).map sliceName),
      sliceCommands := segments.map (fun s => (s.mediaStart, s.duration)),
      concatInvoked := true }

/-- The command-line values relevant to edit-list selection: the value of
the `-x` (alias `--xml`) option, whose default is the auto-discovered
`.xml` file (or `none` when zero or several candidates exist). -/
structure Args : Type where
  xml : Option String
deriving Repr, DecidableEq

/-- The path whose contents `__main__` hands to `extract_segments`
(line 426 of the source): the string literal `"project.xml"`.  The parsed
`args.xml` is assigned to the global `XML` at line 414 but never read
afterwards. -/
def mainExtractPath : Args → String :=
  fun _ => "project.xml"

/-- A leaf media element carrying the three timing attributes. -/
def leafElem (tag ts ms d : String) : Elem :=
  .mk tag [("start", ts), ("mediaStart", ms), ("mediaDuration", d)] []

/-- A document whose single track holds one media list. -/
def docWithMedias (ms : List Elem) : Elem :=
  .mk "Project" [] [
    .mk "Timeline" [] [
      .mk "GenericMixer" [] [
        .mk "Tracks" [] [
          .mk "GenericTrack" [] [.mk "Medias" [] ms]]]]]

/-- Two clips whose timeline starts arrive out of order (100 then 50). -/
def unsortedDoc : Elem :=
  docWithMedias [leafElem "ScreenVMFile" "100" "0" "10",
                 leafElem "ScreenVMFile" "50" "50" "10"]

/-- Two clips whose timeline starts arrive in ascending order. -/
def sortedDoc : Elem :=
  docWithMedias [leafElem "ScreenVMFile" "10" "0" "5",
                 leafElem "ScreenVMFile" "20" "5" "5"]

/-- Scenario C: two parallel tracks carrying clips with the identical key
`(mediaStart = 500, duration = 300)` but different tags. -/
def parallelDoc : Elem :=
  .mk "Project" [] [
    .mk "Timeline" [] [
      .mk "GenericMixer" [] [
        .mk "Tracks" [] [
          .mk "GenericTrack" [] [.mk "Medias" [] [leafElem "StitchedMedia" "0" "500" "300"]],
          .mk "GenericTrack" [] [.mk "Medias" [] [leafElem "ScreenVMFile" "0" "500" "300"]]]]]]

/-- The candidate list of `parallelDoc`. -/
def parallelCands : List Segment :=
  [⟨"StitchedMedia", 0, 500, 300⟩, ⟨"ScreenVMFile", 0, 500, 300⟩]

/-- An audio leaf clip (tag `AMFile`) with positive duration. -/
def amfileLeaf : Elem :=
  leafElem "AMFile" "0" "0" "100"

/-- A document whose single track holds exactly `amfileLeaf`. -/
def amfileDoc : Elem :=
  docWithMedias [amfileLeaf]

/-- A document whose single clip has `mediaDuration = "0"`. -/
def zeroDurDoc : Elem :=
  docWithMedias [leafElem "ScreenVMFile" "0" "0" "0"]

/-- A document with no `Timeline/GenericMixer/Tracks/GenericTrack` path at
all. -/
def noTracksDoc : Elem :=
  .mk "Project" [] [.mk "SomethingElse" [] []]

/-- A `GenericTrack` element with no `Medias` child. -/
def mediasLessTrack : Elem :=
  .mk "GenericTrack" [] [.mk "Attributes" [] []]

/-! ## Helper lemmas -/

/-- The deduplication loop returns a subsequence of its input: segments are
kept or dropped, never reordered or rewritten. -/
theorem dedupSegments_sublist (cs : List Segment) :
    ∀ seen : List (Int × Int), List.Sublist (dedupSegments cs seen) cs := by
  induction cs with
  | nil => intro seen; simp [dedupSegments]
  | cons s rest ih =>
      intro seen
      by_cases hmem : keyOf s ∈ seen
      · simpa [dedupSegments, hmem] using List.Sublist.cons s (ih seen)
      · simpa [dedupSegments, hmem] using List.Sublist.cons₂ s (ih (keyOf s :: seen))

/-- What the deduplication loop keeps for one key: nothing if the key was
already seen, otherwise exactly the first input segment carrying it. -/
theorem dedupSegments_filter (k : Int × Int) (cs : List Segment) :
    ∀ seen : List (Int × Int),
      (dedupSegments cs seen).filter (fun s => keyOf s = k) =
        if k ∈ seen then [] else (cs.filter (fun s => keyOf s = k)).take 1 := by
  induction cs with
  | nil => intro seen; by_cases hk : k ∈ seen <;> simp [dedupSegments, hk]
  | cons s rest ih =>
      intro seen
      by_cases hmem : keyOf s ∈ seen
      · rw [show dedupSegments (s :: rest) seen = dedupSegments rest seen from by
          simp [dedupSegments, hmem]]
        rw [ih seen]
        by_cases hk : k ∈ seen
        · simp [hk]
        · have hne : ¬ keyOf s = k := fun he => hk (he ▸ hmem)
          simp [hk, List.filter_cons, hne]
      · rw [show dedupSegments (s :: rest) seen = s :: dedupSegments rest (keyOf s :: seen) from by
          simp [dedupSegments, hmem]]
        by_cases hsk : keyOf s = k
        · have hk : ¬ k ∈ seen := fun hin => hmem (hsk ▸ hin)
          rw [List.filter_cons_of_pos (by simp [hsk])]
          rw [ih (keyOf s :: seen)]
          simp [hk, List.filter_cons, hsk, List.mem_cons]
        · rw [List.filter_cons_of_neg (by simp [hsk])]
          rw [ih (keyOf s :: seen)]
          have : (k ∈ keyOf s :: seen) ↔ (k ∈ seen) := by
            simp [List.mem_cons]
            intro he; exact absurd he.symm hsk
          by_cases hk : k ∈ seen
          · simp [hk, this]
          · simp [hk, this, List.filter_cons, hsk]

/-- Candidate collection distributes over concatenated sibling lists,
aborting at the first failure in left-to-right order. -/
theorem mediasCandidates_append (l1 l2 : List Elem) :
    mediasCandidates (l1 ++ l2) =
      match mediasCandidates l1 with
      | none => none
      | some a =>
          match mediasCandidates l2 with
          | none => none
          | some b => some (a ++ b) := by
  induction l1 with
  | nil =>
      simp only [List.nil_append, mediasCandidates]
      cases mediasCandidates l2 <;> simp
  | cons m rest ih =>
      cases hm : mediaCandidate m with
      | none => simp [mediasCandidates, hm]
      | some c =>
          cases hr : mediasCandidates rest with
          | none =>
              have h2 : mediasCandidates (rest ++ l2) = none := by rw [ih, hr]
              simp [mediasCandidates, hm, h2, hr]
          | some a =>
              cases hl : mediasCandidates l2 with
              | none =>
                  have h2 : mediasCandidates (rest ++ l2) = none := by rw [ih, hr, hl]
                  simp [mediasCandidates, hm, h2, hr, hl]
              | some b =>
                  have h2 : mediasCandidates (rest ++ l2) = some (a ++ b) := by rw [ih, hr, hl]
                  simp [mediasCandidates, hm, h2, hr, hl]

/-- `takeWhile` up to the first slash recovers the part before it. -/
theorem takeWhile_until_slash (a b : List Char) (h : '/' ∉ a) :
    (a ++ '/' :: b).takeWhile (fun c => c ≠ '/') = a := by
  induction a with
  | nil => simp [List.takeWhile_cons]
  | cons x xs ih =>
      have hx : x ≠ '/' := fun he => h (he ▸ List.mem_cons_self x xs)
      have hxs : '/' ∉ xs := fun he => h (List.mem_cons_of_mem x he)
      rw [List.cons_append, List.takeWhile_cons, if_pos (by simp [hx]), ih hxs]

/-! ## Claim theorems -/

/-- C1 (counterexample): the claim that the returned sequence is sorted by
ascending timelineStart is false: `extract_segments` performs no sort, so
on `unsortedDoc` the timeline starts come back as 100 then 50. -/
theorem extract_segments_not_sorted_cex :
    extract_segments unsortedDoc =
      some [⟨"ScreenVMFile", 100, 0, 10⟩, ⟨"ScreenVMFile", 50, 50, 10⟩] ∧
    ¬ List.Pairwise (fun a b : Segment => a.timelineStart ≤ b.timelineStart)
        ((extract_segments unsortedDoc).getD []) := by
  decide

/-- C1 (amended): `extract_segments` does not sort; deduplication preserves
the candidate traversal order (the output is a subsequence of the
candidates), so whenever the candidates are encountered in non-decreasing
timelineStart order, the output is non-decreasing as well. -/
theorem extract_segments_preserves_sorted (root : Elem) (cs out : List Segment)
    (h : candidates root = some cs)
    (ho : extract_segments root = some out)
    (hs : List.Pairwise (fun a b => a.timelineStart ≤ b.timelineStart) cs) :
    List.Pairwise (fun a b => a.timelineStart ≤ b.timelineStart) out := by
  have hout : out = dedupSegments cs [] := by
    simp only [extract_segments, h] at ho
    exact (Option.some.inj ho).symm
  rw [hout]
  exact hs.sublist (dedupSegments_sublist cs [])

/-- Witness for the amended C1, at `sortedDoc`. -/
theorem extract_segments_preserves_sorted_witness :
    List.Pairwise (fun a b : Segment => a.timelineStart ≤ b.timelineStart)
      [⟨"ScreenVMFile", 10, 0, 5⟩, ⟨"ScreenVMFile", 20, 5, 5⟩] :=
  extract_segments_preserves_sorted sortedDoc
    [⟨"ScreenVMFile", 10, 0, 5⟩, ⟨"ScreenVMFile", 20, 5, 5⟩]
    [⟨"ScreenVMFile", 10, 0, 5⟩, ⟨"ScreenVMFile", 20, 5, 5⟩]
    (by decide) (by decide) (by decide)

/-- C2: deduplication keys candidates by `(mediaStart, duration)`; for any
key present among the candidates the output retains exactly one segment
with that key, namely the first one encountered in traversal order (its
type tag included, since the whole record is kept verbatim). -/
theorem extract_segments_dedup_first (root : Elem) (cs : List Segment)
    (k : Int × Int) (h : candidates root = some cs) (hk : k ∈ cs.map keyOf) :
    extract_segments root = some (dedupSegments cs []) ∧
    (dedupSegments cs []).filter (fun s => keyOf s = k) =
      (cs.filter (fun s => keyOf s = k)).take 1 ∧
    ((dedupSegments cs []).filter (fun s => keyOf s = k)).length = 1 := by
  have hfe : (dedupSegments cs []).filter (fun s => keyOf s = k) =
      (cs.filter (fun s => keyOf s = k)).take 1 := by
    simpa using dedupSegments_filter k cs []
  refine ⟨by simp [extract_segments, h], hfe, ?_⟩
  rw [hfe]
  obtain ⟨s, hsmem, hsk⟩ := List.mem_map.mp hk
  have hmemf : s ∈ cs.filter (fun t => keyOf t = k) :=
    List.mem_filter.mpr ⟨hsmem, by simp [hsk]⟩
  have hpos : 0 < (cs.filter (fun t => keyOf t = k)).length :=
    List.length_pos.mpr (List.ne_nil_of_mem hmemf)
  rw [List.length_take]
  omega

/-- Witness for C2, at Scenario C: two parallel tracks with the same key
`(500, 300)` but different tags collapse to the first-encountered
candidate. -/
theorem extract_segments_dedup_first_witness :
    extract_segments parallelDoc = some (dedupSegments parallelCands []) ∧
    (dedupSegments parallelCands []).filter (fun s => keyOf s = (500, 300)) =
      (parallelCands.filter (fun s => keyOf s = (500, 300))).take 1 ∧
    ((dedupSegments parallelCands []).filter (fun s => keyOf s = (500, 300))).length = 1 :=
  extract_segments_dedup_first parallelDoc parallelCands (500, 300)
    (by decide) (by decide)

/-- C3: a `StitchedMedia` element that is a direct media child contributes
exactly one candidate segment, built from its own `start`, `mediaStart`
and `mediaDuration` attributes; its nested children are never visited, so
the result is the same for every child list `kids`. -/
theorem stitchedMedia_opaque_one_candidate
    (attrs : List (String × String)) (kids pre post : List Elem)
    (l1 l2 : List Segment) (ts ms d : Int)
    (hpre : mediasCandidates pre = some l1)
    (hpost : mediasCandidates post = some l2)
    (hts : parse_fraction (some ((Elem.mk "StitchedMedia" attrs kids).getD "start" "0")) = some ts)
    (hms : parse_fraction (some ((Elem.mk "StitchedMedia" attrs kids).getD "mediaStart" "0")) = some ms)
    (hd : parse_fraction (some ((Elem.mk "StitchedMedia" attrs kids).getD "mediaDuration" "0")) = some d) :
    mediasCandidates (pre ++ Elem.mk "StitchedMedia" attrs kids :: post) =
      some (l1 ++ ⟨"StitchedMedia", ts, ms, d⟩ :: l2) := by
  have hm : mediaCandidate (Elem.mk "StitchedMedia" attrs kids) =
      some (some ⟨"StitchedMedia", ts, ms, d⟩) := by
    unfold mediaCandidate
    rw [show (Elem.mk "StitchedMedia" attrs kids).tag = "StitchedMedia" from rfl]
    rw [if_pos rfl, hts, hms, hd]
  rw [mediasCandidates_append pre (Elem.mk "StitchedMedia" attrs kids :: post), hpre]
  simp [mediasCandidates, hm, hpost]

/-- Witness for C3: a concrete group carrying a nested `ScreenVMFile`
child whose values (1, 2, 3) do not reach the output. -/
theorem stitchedMedia_opaque_one_candidate_witness :
    mediasCandidates ([] ++ Elem.mk "StitchedMedia"
        [("start", "100"), ("mediaStart", "200"), ("mediaDuration", "300")]
        [leafElem "ScreenVMFile" "1" "2" "3"] :: []) =
      some ([] ++ (⟨"StitchedMedia", 100, 200, 300⟩ : Segment) :: []) :=
  stitchedMedia_opaque_one_candidate
    [("start", "100"), ("mediaStart", "200"), ("mediaDuration", "300")]
    [leafElem "ScreenVMFile" "1" "2" "3"] [] [] [] [] 100 200 300
    (by decide) (by decide) (by decide) (by decide) (by decide)

/-- C4 (counterexample): `amfileDoc`'s single track holds exactly one leaf
clip, `amfileLeaf`, an `AMFile` with parsed duration 100 > 0, enclosed in
no group; yet extraction returns no segments at all, so that leaf clip
contributes to no emitted Segment. -/
theorem amfile_leaf_contributes_nothing_cex :
    parse_fraction (some (amfileLeaf.getD "mediaDuration" "0")) = some 100 ∧
    (0 : Int) < 100 ∧
    mediaCandidate amfileLeaf = some none ∧
    candidates amfileDoc = some [] ∧
    extract_segments amfileDoc = some [] := by
  decide

/-- C4 (amended): every candidate segment — i.e. every `StitchedMedia` or
`ScreenVMFile` direct media child; leaf clips of other kinds produce no
candidate at all — contributes to exactly one emitted Segment, the
first-encountered representative of its `(mediaStart, duration)` key. -/
theorem candidate_unique_representative (root : Elem) (cs : List Segment)
    (s : Segment) (h : candidates root = some cs) (hs : s ∈ cs) :
    extract_segments root = some (dedupSegments cs []) ∧
    ((dedupSegments cs []).filter (fun t => keyOf t = keyOf s)).length = 1 := by
  refine ⟨by simp [extract_segments, h], ?_⟩
  have hfe : (dedupSegments cs []).filter (fun t => keyOf t = keyOf s) =
      (cs.filter (fun t => keyOf t = keyOf s)).take 1 := by
    simpa using dedupSegments_filter (keyOf s) cs []
  rw [hfe]
  have hmemf : s ∈ cs.filter (fun t => keyOf t = keyOf s) :=
    List.mem_filter.mpr ⟨hs, by simp⟩
  have hpos : 0 < (cs.filter (fun t => keyOf t = keyOf s)).length :=
    List.length_pos.mpr (List.ne_nil_of_mem hmemf)
  rw [List.length_take]
  omega

/-- Witness for the amended C4, at `sortedDoc`. -/
theorem candidate_unique_representative_witness :
    extract_segments sortedDoc =
      some (dedupSegments [⟨"ScreenVMFile", 10, 0, 5⟩, ⟨"ScreenVMFile", 20, 5, 5⟩] []) ∧
    ((dedupSegments [⟨"ScreenVMFile", 10, 0, 5⟩, ⟨"ScreenVMFile", 20, 5, 5⟩] []).filter
      (fun t => keyOf t = keyOf ⟨"ScreenVMFile", 10, 0, 5⟩)).length = 1 :=
  candidate_unique_representative sortedDoc
    [⟨"ScreenVMFile", 10, 0, 5⟩, ⟨"ScreenVMFile", 20, 5, 5⟩]
    ⟨"ScreenVMFile", 10, 0, 5⟩ (by decide) (by decide)

/-- C5 (counterexample): a clip whose `mediaDuration` attribute is `"0"`
yields an output segment with duration 0, so not every returned segment
has positive duration. -/
theorem zero_duration_segment_cex :
    extract_segments zeroDurDoc = some [⟨"ScreenVMFile", 0, 0, 0⟩] ∧
    ¬ (∀ s ∈ (extract_segments zeroDurDoc).getD [], 0 < s.duration) := by
  decide

/-- C5 (amended): this extraction strategy checks nothing about durations:
the output is exactly a subsequence of the candidate list, each segment
carrying its parsed `mediaDuration` unchanged, so zero (or negative)
durations pass through to the result. -/
theorem extract_segments_sublist_of_candidates (root : Elem)
    (cs out : List Segment)
    (h : candidates root = some cs) (ho : extract_segments root = some out) :
    List.Sublist out cs := by
  have hout : out = dedupSegments cs [] := by
    simp only [extract_segments, h] at ho
    exact (Option.some.inj ho).symm
  rw [hout]
  exact dedupSegments_sublist cs []

/-- Witness for the amended C5, at `zeroDurDoc`. -/
theorem extract_segments_sublist_of_candidates_witness :
    List.Sublist [(⟨"ScreenVMFile", 0, 0, 0⟩ : Segment)]
      [(⟨"ScreenVMFile", 0, 0, 0⟩ : Segment)] :=
  extract_segments_sublist_of_candidates zeroDurDoc
    [⟨"ScreenVMFile", 0, 0, 0⟩] [⟨"ScreenVMFile", 0, 0, 0⟩]
    (by decide) (by decide)

/-- C6: `parse_fraction` takes the integer before the first slash when one
is present (denominator ignored), parses a plain integer string directly,
and maps an empty or absent value to 0; in particular the four quoted
evaluations hold. -/
theorem parse_fraction_spec :
    parse_fraction (some "1032/1") = some 1032 ∧
    parse_fraction (some "45") = some 45 ∧
    parse_fraction (some "") = some 0 ∧
    parse_fraction none = some 0 ∧
    (∀ (a b : List Char) (n : Int), '/' ∉ a → pyInt (String.mk a) = some n →
      parse_fraction (some (String.mk (a ++ '/' :: b))) = some n) ∧
    (∀ (s : String) (n : Int), '/' ∉ s.toList → pyInt s = some n →
      parse_fraction (some s) = some n) := by
  refine ⟨by decide, by decide, by decide, by decide, ?_, ?_⟩
  · intro a b n ha hn
    have hl : (String.mk (a ++ '/' :: b)).toList = a ++ '/' :: b := rfl
    have hmem : '/' ∈ a ++ '/' :: b :=
      List.mem_append_right a (List.mem_cons_self _ _)
    have hne : a ++ '/' :: b ≠ [] := by simp
    simp only [parse_fraction, hl]
    rw [if_pos ⟨hne, hmem⟩, takeWhile_until_slash a b ha]
    exact hn
  · intro s n hs hn
    by_cases he : s.toList = []
    · exfalso
      have hnone : pyInt s = none := by
        have hd : s.data = [] := he
        simp [pyInt, hd]
      rw [hnone] at hn
      exact Option.noConfusion hn
    · simp only [parse_fraction]
      rw [if_neg (fun hc => hs hc.2), if_pos he]
      exact hn

/-- Witness for C6's general slash clause, at the concrete split 7 / 2. -/
theorem parse_fraction_spec_witness :
    parse_fraction (some (String.mk (['7'] ++ '/' :: ['2']))) = some 7 :=
  parse_fraction_spec.2.2.2.2.1 ['7'] ['2'] 7 (by decide) (by decide)

/-- C7 (counterexample): on a document lacking the expected
`Timeline/GenericMixer/Tracks/GenericTrack` path, `extract_segments`
returns normally with the empty list: no `MalformedDocument` failure
exists anywhere in the code. -/
theorem absent_path_no_error_cex :
    extract_segments noTracksDoc = some [] ∧
    (extract_segments noTracksDoc).isSome = true := by
  decide

/-- C7 (amended): when the expected track container path is absent the
extractor returns the empty sequence normally, and a track without a
`Medias` child is silently skipped (`continue`); extraction has no
structural failure mode at all. -/
theorem absent_path_returns_normally (root t : Elem)
    (h : tracksOf root = [])
    (ht : t.children.find? (fun c => c.tag = "Medias") = none) :
    extract_segments root = some [] ∧ trackCandidates t = some [] := by
  constructor
  · simp [extract_segments, candidates, candidates.go, h, dedupSegments]
  · simp [trackCandidates, ht]

/-- Witness for the amended C7. -/
theorem absent_path_returns_normally_witness :
    extract_segments noTracksDoc = some [] ∧
    trackCandidates mediasLessTrack = some [] :=
  absent_path_returns_normally noTracksDoc mediasLessTrack rfl rfl

/-- C8 (counterexample): with an empty segment sequence the final
concatenation command is still issued on the (empty) manifest — the code
neither skips concatenation nor fails with a "nothing to render"
signal. -/
theorem empty_doc_concat_still_invoked_cex :
    extract_segments noTracksDoc = some [] ∧
    (reconstruct [] false).concatInvoked = true ∧
    (reconstruct [] false).manifestWritten = some [] ∧
    (reconstruct [] false).sliceCommands = [] := by
  decide

/-- C8 (amended): an empty document yields an empty segment sequence
without error; rendering is then a no-op that writes an empty manifest and
issues no slice command — but the concatenation command is issued
unconditionally rather than skipped, and the program itself reports
nothing (any failure would come from the external engine). -/
theorem empty_doc_render_trace (r : Bool) (root : Elem)
    (h : tracksOf root = []) :
    extract_segments root = some [] ∧
    (reconstruct [] r).concatInvoked = true ∧
    (reconstruct [] false).manifestWritten = some [] ∧
    (reconstruct [] false).sliceCommands = [] := by
  refine ⟨?_, ?_, by decide, by decide⟩
  · simp [extract_segments, candidates, candidates.go, h, dedupSegments]
  · cases r <;> decide

/-- Witness for the amended C8. -/
theorem empty_doc_render_trace_witness :
    extract_segments noTracksDoc = some [] ∧
    (reconstruct [] true).concatInvoked = true ∧
    (reconstruct [] false).manifestWritten = some [] ∧
    (reconstruct [] false).sliceCommands = [] :=
  empty_doc_render_trace true noTracksDoc rfl

/-- C9 (code bug): whatever the parsed arguments say — here an explicit
`-x other.xml` — the path handed to `extract_segments` is the hardcoded
literal `"project.xml"`; the argument value the CLI documents is parsed,
stored, and never used. -/
theorem mainExtractPath_ignores_xml_arg :
    mainExtractPath { xml := some "other.xml" } = "project.xml" ∧
    mainExtractPath { xml := some "other.xml" } ≠ "other.xml" ∧
    mainExtractPath { xml := none } = "project.xml" :=
  ⟨rfl, by decide, rfl⟩

/-- C10: a direct media child whose tag is neither `StitchedMedia` nor
`ScreenVMFile` produces no candidate segment and no error, whatever its
attributes and children, and contributes nothing to its siblings'
candidate list. -/
theorem unknown_tag_no_candidate (tg : String)
    (attrs : List (String × String)) (kids rest : List Elem)
    (h1 : tg ≠ "StitchedMedia") (h2 : tg ≠ "ScreenVMFile") :
    mediaCandidate (Elem.mk tg attrs kids) = some none ∧
    mediasCandidates (Elem.mk tg attrs kids :: rest) = mediasCandidates rest := by
  have hc : mediaCandidate (Elem.mk tg attrs kids) = some none := by
    simp [mediaCandidate, Elem.tag, h1, h2]
  refine ⟨hc, ?_⟩
  simp only [mediasCandidates, hc]
  cases mediasCandidates rest <;> simp

/-- Witness for C10: an `AMFile` clip with timing attributes present. -/
theorem unknown_tag_no_candidate_witness :
    mediaCandidate (Elem.mk "AMFile"
        [("start", "0"), ("mediaStart", "0"), ("mediaDuration", "100")] []) = some none ∧
    mediasCandidates [Elem.mk "AMFile"
        [("start", "0"), ("mediaStart", "0"), ("mediaDuration", "100")] []] =
      mediasCandidates [] :=
  unknown_tag_no_candidate "AMFile"
    [("start", "0"), ("mediaStart", "0"), ("mediaDuration", "100")] [] []
    (by decide) (by decide)

end Camancipation
